import Mathlib

/-!
Shallow embedding of the chunked-upload session manager of `better-storage`
(`class ChunkManager`), together with its record types (`UploadSession`,
`UploadSessionMetadata`, `Visibility`) and the storage error classes
(`UploadSessionNotFoundError`, `IncompleteUploadError`).

The manager's observable state is
  * the in-memory `sessions` map (session id → session record),
  * the on-disk scratch area: one directory per session id under the base
    path, holding `metadata.json` and the chunk files `chunk-<index>`,
  * the assembled target files written by `finalizeUpload`.
Paths are modelled relative to the configured base path: a session directory
is keyed by its session id, and target files live in their own key space
(`startUpload` derives `<id>-<filename>`, a plain file directly under the
base path, so target files never collide with session directories).

Fallible I/O is made explicit: `receiveChunk` takes a boolean saying whether
the chunk-data write reaches disk, and `finalizeUpload` takes a predicate
saying which chunk read streams deliver.  Because the original methods mutate
state and then `throw`, every fallible operation returns the error *and* the
state as mutated up to the failure point.
-/

namespace BetterStorage

/-- Raw file contents: a byte sequence. -/
abbrev Bytes := List Nat

/-- `type Visibility = 'public' | 'private' | 'test'`. -/
inductive Visibility where
  | pub
  | priv
  | testVis
  deriving DecidableEq, Repr

/-- A JavaScript `number` in the `totalChunks` position: a finite value, or
the distinguished `Infinity` marker for an unbounded session. -/
inductive JSTotal where
  | num (n : ℤ)
  | inf
  deriving DecidableEq, Repr

/-- `interface UploadSession` — the in-memory session record.
`receivedChunks: Set<number>` is modelled as a `Finset ℤ`. -/
structure UploadSession where
  id : String
  originalName : String
  totalChunks : JSTotal
  receivedChunks : Finset ℤ
  targetPath : String
  visibility : Visibility
  deriving DecidableEq

/-- `type UploadSessionMetadata` — the persisted form, with the set
serialized as an integer sequence ("because Set is not serializable"). -/
structure UploadSessionMetadata where
  id : String
  originalName : String
  totalChunks : JSTotal
  receivedChunks : List ℤ
  targetPath : String
  visibility : Visibility
  deriving DecidableEq

/-- The error classes thrown by `ChunkManager` (from `storage_error.ts`),
plus a constructor for an underlying I/O failure propagated unchanged. -/
inductive StorageError where
  | uploadSessionNotFound (id : String)
  | incompleteUpload (id : String) (expected received : ℤ)
  | ioError
  deriving DecidableEq, Repr

/-- One session directory on disk: the optional `metadata.json` and the
chunk files `chunk-<index>`, keyed by their parsed index. -/
structure SessionDir where
  metadataFile : Option UploadSessionMetadata
  chunkFiles : List (ℤ × Bytes)
  deriving DecidableEq

/-- Writing file `chunk-<k>` into a directory: replace the existing entry for
`k` if present, otherwise create it. -/
def chunkSet : List (ℤ × Bytes) → ℤ → Bytes → List (ℤ × Bytes)
  | [], k, v => [(k, v)]
  | (k', v') :: rest, k, v =>
      if k' = k then (k, v) :: rest else (k', v') :: chunkSet rest k v

/-- Reading file `chunk-<k>` from a directory listing. -/
def chunkGet : List (ℤ × Bytes) → ℤ → Option Bytes
  | [], _ => none
  | (k', v') :: rest, k => if k' = k then some v' else chunkGet rest k

/-- Whole manager state: in-memory sessions, session directories under the
base path, and assembled target files. -/
@[ext]
structure CMState where
  sessions : String → Option UploadSession
  disk : String → Option SessionDir
  targetFiles : String → Option Bytes

/-- Point update of a string-keyed map. -/
def upd {α : Type} (f : String → Option α) (k : String) (v : Option α) :
    String → Option α :=
  fun k' => if k' = k then v else f k'

/-- `Array.from(session.receivedChunks)` followed by record spread: the
persisted metadata record.  The set is enumerated as its ascending list; all
properties proved below are insensitive to the enumeration order because
deserialization immediately reforms the set. -/
def marshal (s : UploadSession) : UploadSessionMetadata :=
  { id := s.id
    originalName := s.originalName
    totalChunks := s.totalChunks
    receivedChunks := s.receivedChunks.sort (· ≤ ·)
    targetPath := s.targetPath
    visibility := s.visibility }

/-- `new Set(metadata.receivedChunks)` plus record spread: reconstructing the
in-memory session from persisted metadata. -/
def unmarshal (m : UploadSessionMetadata) : UploadSession :=
  { id := m.id
    originalName := m.originalName
    totalChunks := m.totalChunks
    receivedChunks := m.receivedChunks.toFinset
    targetPath := m.targetPath
    visibility := m.visibility }

/-- `fs.ensureDir(sessionDir)`: create the directory if missing, keep its
contents if present. -/
def ensureDir (disk : String → Option SessionDir) (id : String) :
    String → Option SessionDir :=
  upd disk id (some ((disk id).getD ⟨none, []⟩))

/-- `saveMetadata(session)`: ensure the session directory exists, then write
`metadata.json` inside it. -/
def saveMetadata (s : UploadSession) (st : CMState) : CMState :=
  { st with
      disk := upd st.disk s.id
        (some { (st.disk s.id).getD ⟨none, []⟩ with metadataFile := some (marshal s) }) }

/-- `startSession(id, totalChunks, originalName, targetPath, visibility)`. -/
def startSession (id : String) (totalChunks : JSTotal) (originalName : String)
    (targetPath : String) (visibility : Visibility) (st : CMState) : CMState :=
  let session : UploadSession :=
    { id := id
      originalName := originalName
      totalChunks := totalChunks
      receivedChunks := ∅
      targetPath := targetPath
      visibility := visibility }
  let st1 := { st with sessions := upd st.sessions id (some session) }
  let st2 := saveMetadata session st1
  { st2 with disk := ensureDir st2.disk id }

/-- `startUpload(uploadId, chunks, filename, visibility)`: the simple-API
wrapper, deriving the target path `<uploadId>-<filename>` under the base
path. -/
def startUpload (uploadId : String) (chunks : JSTotal) (filename : String)
    (visibility : Visibility) (st : CMState) : CMState :=
  startSession uploadId chunks filename (uploadId ++ "-" ++ filename) visibility st

/-- `fs.writeFile(chunkPath, chunk)` / piping the readable into
`createWriteStream(chunkPath)`: store the chunk file in the session
directory (which exists, `saveMetadata` having just ensured it). -/
def writeChunkFile (disk : String → Option SessionDir) (id : String) (i : ℤ)
    (b : Bytes) : String → Option SessionDir :=
  upd disk id ((disk id).map fun sd => { sd with chunkFiles := chunkSet sd.chunkFiles i b })

/-- `receiveChunk(id, chunkIndex, chunk)`.  `writeOk` says whether the
chunk-data write reaches disk or fails with an I/O error.  Note the source
adds the index to the received-set and persists metadata BEFORE writing the
chunk's bytes, so a failed data write still leaves both updates behind. -/
def receiveChunk (id : String) (chunkIndex : ℤ) (chunk : Bytes) (writeOk : Bool)
    (st : CMState) : Except StorageError Unit × CMState :=
  match st.sessions id with
  | none => (.error (.uploadSessionNotFound id), st)
  | some session =>
      let session' :=
        { session with receivedChunks := insert chunkIndex session.receivedChunks }
      let st1 := { st with sessions := upd st.sessions id (some session') }
      let st2 := saveMetadata session' st1
      if writeOk then
        (.ok (), { st2 with disk := writeChunkFile st2.disk id chunkIndex chunk })
      else
        (.error .ioError, st2)

/-- `appendChunk(uploadId, index, data)`: delegates to `receiveChunk`. -/
def appendChunk (uploadId : String) (index : ℤ) (data : Bytes) (writeOk : Bool)
    (st : CMState) : Except StorageError Unit × CMState :=
  receiveChunk uploadId index data writeOk st

/-- One iteration of the `loadSessionsFromDisk` loop: if directory `dir`
holds a `metadata.json`, re-register the deserialized session in memory
under the id recorded in the metadata. -/
def loadStep (acc : CMState) (dir : String) : CMState :=
  match (acc.disk dir).bind (·.metadataFile) with
  | some metadata =>
      { acc with
          sessions := upd acc.sessions metadata.id (some (unmarshal metadata)) }
  | none => acc

/-- `loadSessionsFromDisk()`.  `sessionDirs` is the result of
`fs.readdir(basePath)`. -/
def loadSessionsFromDisk (sessionDirs : List String) (st : CMState) : CMState :=
  sessionDirs.foldl loadStep st

/-- `getProgress(id)`: `0` for an unknown id, else
`(receivedChunks.size / totalChunks) * 100`.  For an unbounded session the
source divides by `Infinity`, which in JavaScript number arithmetic yields
`0`. -/
def getProgress (id : String) (st : CMState) : ℚ :=
  match st.sessions id with
  | none => 0
  | some session =>
      match session.totalChunks with
      | .inf => 0
      | .num n => ((session.receivedChunks.card : ℚ) / (n : ℚ)) * 100

/-- The streaming loop of `finalizeUpload`: pipe each listed chunk file into
the open write stream.  `readOk i` says whether the read stream for
`chunk-<i>` delivers (a missing file also fails its read stream).  Returns
the bytes piped so far and whether every read succeeded. -/
def streamLoop (readChunk : ℤ → Option Bytes) (readOk : ℤ → Bool) :
    List ℤ → Bytes → Bytes × Bool
  | [], acc => (acc, true)
  | i :: rest, acc =>
      if readOk i then
        match readChunk i with
        | some b => streamLoop readChunk readOk rest (acc ++ b)
        | none => (acc, false)
      else (acc, false)

/-- The tail of `finalizeUpload` once the ordered index list is known:
`createWriteStream(targetPath)` truncates the target, the chunks are piped
in order, and only on full success are the session directory and the
in-memory entry removed. -/
def streamAndFinish (id : String) (session : UploadSession)
    (chunkIndexes : List ℤ) (readOk : ℤ → Bool) (st : CMState) :
    Except StorageError String × CMState :=
  let readChunk : ℤ → Option Bytes := fun i =>
    (st.disk id).bind fun sd => chunkGet sd.chunkFiles i
  let piped := streamLoop readChunk readOk chunkIndexes []
  let st1 :=
    { st with targetFiles := upd st.targetFiles session.targetPath (some piped.1) }
  if piped.2 then
    (.ok session.targetPath,
      { st1 with
          disk := upd st1.disk id none
          sessions := upd st1.sessions id none })
  else
    (.error .ioError, st1)

/-- `finalizeUpload(id)`.  Unbounded sessions enumerate the chunk files in
the session directory and sort the parsed indices ascending; bounded
sessions require the received count to equal `totalChunks` exactly and sort
the received-set ascending. -/
def finalizeUpload (id : String) (readOk : ℤ → Bool) (st : CMState) :
    Except StorageError String × CMState :=
  match st.sessions id with
  | none => (.error (.uploadSessionNotFound id), st)
  | some session =>
      match session.totalChunks with
      | .inf =>
          match st.disk id with
          | none => (.error .ioError, st)
          | some sd =>
              streamAndFinish id session
                ((sd.chunkFiles.map Prod.fst).insertionSort (· ≤ ·)) readOk st
      | .num n =>
          if (session.receivedChunks.card : ℤ) ≠ n then
            (.error (.incompleteUpload id n session.receivedChunks.card), st)
          else
            streamAndFinish id session
              (session.receivedChunks.sort (· ≤ ·)) readOk st

/-- `completeUpload(uploadId)`: delegates to `finalizeUpload`. -/
def completeUpload (uploadId : String) (readOk : ℤ → Bool) (st : CMState) :
    Except StorageError String × CMState :=
  finalizeUpload uploadId readOk st

/-- `abortSession(id)`: drop the in-memory entry and remove the session
directory. -/
def abortSession (id : String) (st : CMState) : CMState :=
  { st with sessions := upd st.sessions id none, disk := upd st.disk id none }

/-- The chunk file stored for index `i` of session `id`, if any. -/
def chunkAt (st : CMState) (id : String) (i : ℤ) : Option Bytes :=
  (st.disk id).bind fun sd => chunkGet sd.chunkFiles i

/-- The manager as freshly constructed over an empty scratch directory. -/
def emptyState : CMState :=
  ⟨fun _ => none, fun _ => none, fun _ => none⟩

/-- The spec's session invariant: every registered bounded session has at
most `totalChunks` received chunks. -/
def CardInv (st : CMState) : Prop :=
  ∀ id s n, st.sessions id = some s → s.totalChunks = JSTotal.num n →
    (s.receivedChunks.card : ℤ) ≤ n

/-- Range form of the invariant on one session: every received index of a
bounded session lies in `[0, totalChunks)`. -/
def SessionOk (s : UploadSession) : Prop :=
  ∀ n, s.totalChunks = JSTotal.num n → ∀ i ∈ s.receivedChunks, 0 ≤ i ∧ i < n

/-- Range invariant over the whole in-memory session map. -/
def StateInv (st : CMState) : Prop :=
  ∀ id s, st.sessions id = some s → SessionOk s

/-- Range form of the invariant on a persisted metadata record. -/
def MetaOk (m : UploadSessionMetadata) : Prop :=
  ∀ n, m.totalChunks = JSTotal.num n → ∀ i ∈ m.receivedChunks, 0 ≤ i ∧ i < n

/-- Range invariant over everything persisted in the scratch area. -/
def DiskOk (st : CMState) : Prop :=
  ∀ d sd, st.disk d = some sd → ∀ m, sd.metadataFile = some m → MetaOk m

instance {ε α : Type} [DecidableEq ε] [DecidableEq α] : DecidableEq (Except ε α) :=
  fun x y =>
    match x, y with
    | .ok a, .ok b =>
        if h : a = b then .isTrue (by rw [h])
        else .isFalse (by intro hc; cases hc; exact h rfl)
    | .error a, .error b =>
        if h : a = b then .isTrue (by rw [h])
        else .isFalse (by intro hc; cases hc; exact h rfl)
    | .ok _, .error _ => .isFalse (by intro hc; cases hc)
    | .error _, .ok _ => .isFalse (by intro hc; cases hc)

/-! ### Basic lemmas about the map and directory primitives -/

theorem upd_self {α : Type} (f : String → Option α) (k : String) (v : Option α) :
    upd f k v k = v := by
  simp [upd]

theorem upd_of_ne {α : Type} (f : String → Option α) (k k' : String) (v : Option α)
    (h : k' ≠ k) : upd f k v k' = f k' := by
  simp [upd, h]

theorem upd_upd {α : Type} (f : String → Option α) (k : String) (v w : Option α) :
    upd (upd f k v) k w = upd f k w := by
  funext x
  by_cases hx : x = k <;> simp [upd, hx]

theorem chunkGet_chunkSet_self (m : List (ℤ × Bytes)) (k : ℤ) (v : Bytes) :
    chunkGet (chunkSet m k v) k = some v := by
  induction m with
  | nil => simp [chunkSet, chunkGet]
  | cons p rest ih =>
      by_cases hk : p.1 = k <;> simp [chunkSet, chunkGet, hk, ih]

theorem chunkGet_chunkSet_ne (m : List (ℤ × Bytes)) (k k' : ℤ) (v : Bytes)
    (h : k' ≠ k) : chunkGet (chunkSet m k v) k' = chunkGet m k' := by
  induction m with
  | nil => simp [chunkSet, chunkGet, h, Ne.symm h]
  | cons p rest ih =>
      by_cases hk : p.1 = k
      · subst hk
        simp [chunkSet, chunkGet, h, Ne.symm h]
      · simp [chunkSet, chunkGet, hk, ih]

theorem chunkSet_chunkSet (m : List (ℤ × Bytes)) (k : ℤ) (v w : Bytes) :
    chunkSet (chunkSet m k v) k w = chunkSet m k w := by
  induction m with
  | nil => simp [chunkSet]
  | cons p rest ih =>
      by_cases hk : p.1 = k <;> simp [chunkSet, hk, ih]

/-! ### Sample states used to instantiate the theorems -/

/-- A fresh bounded session `s1` expecting 4 chunks, none received yet. -/
def stC7 : CMState :=
  startSession "s1" (JSTotal.num 4) "f.txt" "t.txt" Visibility.pub emptyState

/-- The session record registered by `stC7`. -/
def sessC7 : UploadSession :=
  { id := "s1"
    originalName := "f.txt"
    totalChunks := JSTotal.num 4
    receivedChunks := ∅
    targetPath := "t.txt"
    visibility := Visibility.pub }

/-- An unbounded session `u10` with two chunks already received. -/
def stC10 : CMState :=
  (receiveChunk "u10" 1 [4, 5] true
    ((receiveChunk "u10" 0 [1, 2, 3] true
      (startSession "u10" JSTotal.inf "f.bin" "t.bin" Visibility.priv emptyState)).2)).2

/-- The session record registered by `stC10`. -/
def sessC10 : UploadSession :=
  { id := "u10"
    originalName := "f.bin"
    totalChunks := JSTotal.inf
    receivedChunks := insert 1 (insert 0 ∅)
    targetPath := "t.bin"
    visibility := Visibility.priv }

/-- A bounded session `s2` expecting 2 chunks with only chunk 0 received. -/
def stC2 : CMState :=
  (receiveChunk "s2" 0 [7] true
    (startSession "s2" (JSTotal.num 2) "f.txt" "out.txt" Visibility.pub emptyState)).2

/-- The session record registered by `stC2`. -/
def sessC2 : UploadSession :=
  { id := "s2"
    originalName := "f.txt"
    totalChunks := JSTotal.num 2
    receivedChunks := insert 0 ∅
    targetPath := "out.txt"
    visibility := Visibility.pub }

/-! ### C7 — progress formula and the unknown-id probe -/

/-- C7: for every registered bounded session, `getProgress` returns
`|receivedChunks| / totalChunks * 100`, and for every id with no registered
session it returns `0` rather than failing. -/
theorem getProgress_formula (st : CMState) (sid uid : String) (s : UploadSession)
    (n : ℤ) (hs : st.sessions sid = some s) (hn : s.totalChunks = JSTotal.num n)
    (hu : st.sessions uid = none) :
    getProgress sid st = ((s.receivedChunks.card : ℚ) / (n : ℚ)) * 100 ∧
    getProgress uid st = 0 := by
  constructor
  · simp [getProgress, hs, hn]
  · simp [getProgress, hu]

/-- Witness for C7 at a concrete session expecting 4 chunks. -/
theorem getProgress_formula_witness :
    getProgress "s1" stC7 = ((sessC7.receivedChunks.card : ℚ) / ((4 : ℤ) : ℚ)) * 100 ∧
    getProgress "missing" stC7 = 0 :=
  getProgress_formula stC7 "s1" "missing" sessC7 4 (by decide) rfl (by decide)

/-! ### C10 — unbounded sessions report progress 0, like unknown ids -/

/-- C10: an unbounded session (`totalChunks` stored as the `Infinity`
marker) reports progress `0` regardless of how many chunks were received —
the same value reported for an id with no registered session, so a polling
caller cannot tell the two apart. -/
theorem getProgress_unbounded_zero (st : CMState) (uid vid : String)
    (s : UploadSession) (hs : st.sessions uid = some s)
    (hinf : s.totalChunks = JSTotal.inf) (hv : st.sessions vid = none) :
    getProgress uid st = 0 ∧ getProgress vid st = 0 := by
  constructor
  · simp [getProgress, hs, hinf]
  · simp [getProgress, hv]

/-- Witness for C10 at a concrete unbounded session holding 2 chunks. -/
theorem getProgress_unbounded_zero_witness :
    getProgress "u10" stC10 = 0 ∧ getProgress "nobody" stC10 = 0 :=
  getProgress_unbounded_zero stC10 "u10" "nobody" sessC10 (by decide) rfl (by decide)

/-! ### C2 — the completeness gate of `finalizeUpload` -/

/-- C2: `finalizeUpload` on a bounded session with fewer received chunks
than `totalChunks` fails with `IncompleteUploadError` carrying
`expected = totalChunks` and `received = |receivedChunks|`, and returns the
state unchanged: the session is still registered and every chunk file is
untouched. -/
theorem finalizeUpload_incomplete (st : CMState) (id : String) (readOk : ℤ → Bool)
    (s : UploadSession) (n : ℤ) (hs : st.sessions id = some s)
    (hn : s.totalChunks = JSTotal.num n) (hlt : (s.receivedChunks.card : ℤ) < n) :
    finalizeUpload id readOk st =
      (.error (.incompleteUpload id n (s.receivedChunks.card : ℤ)), st) := by
  have hne : (s.receivedChunks.card : ℤ) ≠ n := ne_of_lt hlt
  simp [finalizeUpload, hs, hn, hne]

/-- Witness for C2: a 2-chunk session with only chunk 0 received. -/
theorem finalizeUpload_incomplete_witness :
    finalizeUpload "s2" (fun _ => true) stC2 =
      (.error (.incompleteUpload "s2" 2 ((sessC2.receivedChunks.card : ℤ))), stC2) :=
  finalizeUpload_incomplete stC2 "s2" (fun _ => true) sessC2 2 (by decide) rfl (by decide)

/-! ### C3 — chunk-index validation (absent in the source) -/

/-- A fresh bounded session `s3` expecting 2 chunks. -/
def stC3 : CMState :=
  startSession "s3" (JSTotal.num 2) "f.txt" "t3.txt" Visibility.pub emptyState

/-- C3 counterexample: on a bounded session expecting 2 chunks, submitting
chunk index 5 (≥ totalChunks) is NOT rejected with a validation error: the
call succeeds and the session's received-set now contains 5, and likewise a
call with the negative index -1 succeeds and records -1.  `receiveChunk`
performs no index validation at all. -/
theorem receiveChunk_no_validation_cex :
    (receiveChunk "s3" 5 [7] true stC3).1 = Except.ok () ∧
    ((receiveChunk "s3" 5 [7] true stC3).2.sessions "s3").map
        UploadSession.receivedChunks = some (insert 5 ∅) ∧
    (receiveChunk "s3" (-1) [8] true stC3).1 = Except.ok () ∧
    ((receiveChunk "s3" (-1) [8] true stC3).2.sessions "s3").map
        UploadSession.receivedChunks = some (insert (-1) ∅) := by
  decide

/-- C3 amended: `receiveChunk` applies no validation to the chunk index.
Whenever the session exists, a call with ANY index — negative or
`≥ totalChunks` included — succeeds, adds the index to `receivedChunks` and
re-persists the metadata; the session state IS modified. -/
theorem receiveChunk_accepts_any_index (st : CMState) (id : String) (i : ℤ)
    (b : Bytes) (s : UploadSession) (hs : st.sessions id = some s) :
    (receiveChunk id i b true st).1 = Except.ok () ∧
    (receiveChunk id i b true st).2.sessions id =
      some { s with receivedChunks := insert i s.receivedChunks } := by
  simp [receiveChunk, hs, saveMetadata, upd_self]

/-- Witness for the amended C3 at the out-of-range index 5. -/
theorem receiveChunk_accepts_any_index_witness :
    (receiveChunk "s3" 5 [7] true stC3).1 = Except.ok () ∧
    (receiveChunk "s3" 5 [7] true stC3).2.sessions "s3" =
      some { id := "s3", originalName := "f.txt", totalChunks := JSTotal.num 2,
             receivedChunks := insert 5 ∅, targetPath := "t3.txt",
             visibility := Visibility.pub } :=
  receiveChunk_accepts_any_index stC3 "s3" 5 [7]
    { id := "s3", originalName := "f.txt", totalChunks := JSTotal.num 2,
      receivedChunks := ∅, targetPath := "t3.txt", visibility := Visibility.pub }
    (by decide)

/-! ### C5 — ordering of the chunk-data write against the metadata update -/

/-- A fresh bounded session `u5` expecting 2 chunks. -/
def stC5 : CMState :=
  startSession "u5" (JSTotal.num 2) "f.txt" "t5.txt" Visibility.pub emptyState

/-- C5 (code bug, concrete evaluation at the failing input): the source
adds the index to the received-set and persists metadata BEFORE writing the
chunk's bytes, so a `receiveChunk` whose data write fails surfaces the I/O
error yet leaves index 0 recorded in the in-memory set AND in the persisted
metadata while no chunk file exists — the spec requires the session to be
left exactly as before the call, with the data write durably complete
before the received-set is updated and re-persisted. -/
theorem receiveChunk_failed_write_partial_credit :
    (receiveChunk "u5" 0 [9, 9] false stC5).1 = Except.error StorageError.ioError ∧
    ((receiveChunk "u5" 0 [9, 9] false stC5).2.sessions "u5").map
        UploadSession.receivedChunks = some (insert 0 ∅) ∧
    (((receiveChunk "u5" 0 [9, 9] false stC5).2.disk "u5").bind
        SessionDir.metadataFile).map UploadSessionMetadata.receivedChunks = some [0] ∧
    chunkAt (receiveChunk "u5" 0 [9, 9] false stC5).2 "u5" 0 = none := by
  have hsort : Finset.sort (α := ℤ) (· ≤ ·) (insert 0 ∅) = [0] := by
    rw [show (insert (0 : ℤ) ∅ : Finset ℤ) = {0} from rfl, Finset.sort_singleton]
  refine ⟨rfl, by decide, ?_, by decide⟩
  simp [receiveChunk, stC5, startSession, saveMetadata, marshal, ensureDir, upd,
    emptyState, chunkAt, hsort]

/-! ### C4 — the `|receivedChunks| ≤ totalChunks` invariant -/

/-- A bounded session `s4` expecting 1 chunk, after receiving the in-range
index 0 and then the out-of-range index 5 — both accepted by the source. -/
def stC4 : CMState :=
  (receiveChunk "s4" 5 [1] true
    ((receiveChunk "s4" 0 [0] true
      (startSession "s4" (JSTotal.num 1) "f.txt" "t4.txt" Visibility.pub
        emptyState)).2)).2

/-- The session record registered by `stC4`: 2 received chunks against
`totalChunks = 1`. -/
def sessC4 : UploadSession :=
  { id := "s4"
    originalName := "f.txt"
    totalChunks := JSTotal.num 1
    receivedChunks := insert 5 (insert 0 ∅)
    targetPath := "t4.txt"
    visibility := Visibility.pub }

/-- C4 counterexample: the invariant `|receivedChunks| ≤ totalChunks` is NOT
preserved by every operation — after `startSession` with `totalChunks = 1`
and two accepted `receiveChunk` calls (indices 0 and 5, the latter out of
range and not rejected nor ignored), the registered session has 2 received
chunks against a total of 1. -/
theorem cardInv_violated_cex : ¬ CardInv stC4 := by
  intro h
  have h2 := h "s4" sessC4 1 (by decide) rfl
  exact absurd h2 (by decide)

theorem sessionOk_insert {s : UploadSession} {i : ℤ} (hok : SessionOk s)
    (hi : ∀ n, s.totalChunks = JSTotal.num n → 0 ≤ i ∧ i < n) :
    SessionOk { s with receivedChunks := insert i s.receivedChunks } := by
  intro n hn j hj
  rcases Finset.mem_insert.mp hj with hj | hj
  · subst hj
    exact hi n hn
  · exact hok n hn j hj

theorem sessionOk_card_le {s : UploadSession} {n : ℤ} (hok : SessionOk s)
    (hn : s.totalChunks = JSTotal.num n) (hnn : 0 ≤ n) :
    (s.receivedChunks.card : ℤ) ≤ n := by
  have hsub : s.receivedChunks ⊆ Finset.Ico 0 n := by
    intro i hi
    rcases hok n hn i hi with ⟨h0, h1⟩
    exact Finset.mem_Ico.mpr ⟨h0, h1⟩
  have hcard := Finset.card_le_card hsub
  calc (s.receivedChunks.card : ℤ)
      ≤ ((Finset.Ico (0 : ℤ) n).card : ℤ) := by exact_mod_cast hcard
    _ = n - 0 := Int.card_Ico_of_le 0 n hnn
    _ = n := by ring

/-- The sessions map of `startSession`: the new empty-set record is
registered under `id`. -/
theorem startSession_sessions (id : String) (tc : JSTotal) (nm tp : String)
    (v : Visibility) (st : CMState) :
    (startSession id tc nm tp v st).sessions =
      upd st.sessions id (some
        { id := id, originalName := nm, totalChunks := tc, receivedChunks := ∅,
          targetPath := tp, visibility := v }) := rfl

/-- The sessions map of `abortSession`: the entry is dropped. -/
theorem abortSession_sessions (id : String) (st : CMState) :
    (abortSession id st).sessions = upd st.sessions id none := rfl

/-- The sessions map after `receiveChunk` on a missing session: unchanged. -/
theorem receiveChunk_sessions_none (st : CMState) (id : String) (i : ℤ)
    (b : Bytes) (w : Bool) (h : st.sessions id = none) :
    (receiveChunk id i b w st).2.sessions = st.sessions := by
  simp [receiveChunk, h]

/-- The sessions map after `receiveChunk` on a registered session: the
looked-up record with the index inserted — on both the successful and the
failed-write branch. -/
theorem receiveChunk_sessions_some (st : CMState) (id : String) (i : ℤ)
    (b : Bytes) (w : Bool) (s : UploadSession) (h : st.sessions id = some s) :
    (receiveChunk id i b w st).2.sessions =
      upd st.sessions id
        (some { s with receivedChunks := insert i s.receivedChunks }) := by
  cases w <;> simp [receiveChunk, h, saveMetadata]

/-- `finalizeUpload` only ever deletes from the sessions map: any session
registered afterwards was registered before, unchanged. -/
theorem finalizeUpload_sessions_sub (st : CMState) (id : String)
    (readOk : ℤ → Bool) (id' : String) (s' : UploadSession)
    (h : (finalizeUpload id readOk st).2.sessions id' = some s') :
    st.sessions id' = some s' := by
  have hstream : ∀ session idxs,
      (streamAndFinish id session idxs readOk st).2.sessions id' = some s' →
      st.sessions id' = some s' := by
    intro session idxs hsf
    by_cases hp : (streamLoop
        (fun i => (st.disk id).bind fun sd => chunkGet sd.chunkFiles i)
        readOk idxs []).2
    · simp [streamAndFinish, hp] at hsf
      by_cases hid : id' = id
      · subst hid
        simp [upd_self] at hsf
      · rwa [upd_of_ne _ _ _ _ hid] at hsf
    · simp [streamAndFinish, hp] at hsf
      exact hsf
  cases hs : st.sessions id with
  | none => simpa [finalizeUpload, hs] using h
  | some session =>
      cases htc : session.totalChunks with
      | inf =>
          cases hd : st.disk id with
          | none => simpa [finalizeUpload, hs, htc, hd] using h
          | some sd =>
              exact hstream session ((sd.chunkFiles.map Prod.fst).insertionSort (· ≤ ·))
                (by simpa [finalizeUpload, hs, htc, hd] using h)
      | num n =>
          by_cases hcard : (session.receivedChunks.card : ℤ) ≠ n
          · simpa [finalizeUpload, hs, htc, hcard] using h
          · exact hstream session (session.receivedChunks.sort (· ≤ ·))
              (by simpa [finalizeUpload, hs, htc, hcard] using h)

theorem loadSessions_cons (d : String) (rest : List String) (st : CMState) :
    loadSessionsFromDisk (d :: rest) st = loadSessionsFromDisk rest (loadStep st d) :=
  rfl

/-- One load iteration never touches the disk. -/
theorem loadStep_disk (st : CMState) (d : String) : (loadStep st d).disk = st.disk := by
  unfold loadStep
  cases h : (st.disk d).bind (·.metadataFile) <;> simp [h]

/-- The recovery loader never touches the disk. -/
theorem loadSessions_disk (dirs : List String) (st : CMState) :
    (loadSessionsFromDisk dirs st).disk = st.disk := by
  induction dirs generalizing st with
  | nil => rfl
  | cons d rest ih =>
      rw [loadSessions_cons, ih, loadStep_disk]

theorem metaOk_unmarshal {m : UploadSessionMetadata} (hm : MetaOk m) :
    SessionOk (unmarshal m) := by
  intro n hn j hj
  exact hm n hn j (List.mem_toFinset.mp hj)

theorem stateInv_loadStep {st : CMState} (d : String) (hinv : StateInv st)
    (hdisk : DiskOk st) : StateInv (loadStep st d) := by
  unfold loadStep
  cases h : (st.disk d).bind (·.metadataFile) with
  | none => exact hinv
  | some m =>
      rcases Option.bind_eq_some.mp h with ⟨sd, hsd, hm⟩
      intro id' s' hs'
      dsimp only at hs'
      by_cases hid : id' = m.id
      · subst hid
        rw [upd_self] at hs'
        cases hs'
        exact metaOk_unmarshal (hdisk d sd hsd m hm)
      · rw [upd_of_ne _ _ _ _ hid] at hs'
        exact hinv id' s' hs'

theorem diskOk_of_disk_eq {st st' : CMState} (h : st'.disk = st.disk)
    (hdisk : DiskOk st) : DiskOk st' := by
  intro d sd hsd m hm
  rw [h] at hsd
  exact hdisk d sd hsd m hm

theorem stateInv_load {st : CMState} (dirs : List String) (hinv : StateInv st)
    (hdisk : DiskOk st) : StateInv (loadSessionsFromDisk dirs st) := by
  induction dirs generalizing st with
  | nil => exact hinv
  | cons d rest ih =>
      rw [loadSessions_cons]
      exact ih (stateInv_loadStep d hinv hdisk)
        (diskOk_of_disk_eq (loadStep_disk st d) hdisk)

/-- C4 amended: the invariant `|receivedChunks| ≤ totalChunks` is preserved
by `startSession`, `loadSessionsFromDisk` (over well-formed metadata),
`finalizeUpload` and `abortSession`, and by `receiveChunk` ONLY under the
proviso that the submitted index is in range — the source neither rejects
nor ignores an out-of-range index, so the range discipline is the caller's
burden.  Sessions whose received indices all lie in `[0, totalChunks)` have
at most `totalChunks` received chunks. -/
theorem stateInv_preservation :
    (∀ st id tc nm tp v, StateInv st → StateInv (startSession id tc nm tp v st)) ∧
    (∀ st id i b w, StateInv st →
      (∀ s n, st.sessions id = some s → s.totalChunks = JSTotal.num n →
        0 ≤ i ∧ i < n) →
      StateInv (receiveChunk id i b w st).2) ∧
    (∀ st dirs, StateInv st → DiskOk st → StateInv (loadSessionsFromDisk dirs st)) ∧
    (∀ st id readOk, StateInv st → StateInv (finalizeUpload id readOk st).2) ∧
    (∀ st id, StateInv st → StateInv (abortSession id st)) ∧
    (∀ st id s n, StateInv st → st.sessions id = some s →
      s.totalChunks = JSTotal.num n → 0 ≤ n → (s.receivedChunks.card : ℤ) ≤ n) := by
  refine ⟨?_, ?_, ?_, ?_, ?_, ?_⟩
  · intro st id tc nm tp v hinv id' s' hs'
    rw [startSession_sessions] at hs'
    by_cases hid : id' = id
    · subst hid
      rw [upd_self] at hs'
      cases hs'
      intro n _ j hj
      exact absurd hj (Finset.not_mem_empty j)
    · rw [upd_of_ne _ _ _ _ hid] at hs'
      exact hinv id' s' hs'
  · intro st id i b w hinv hrange id' s' hs'
    cases h : st.sessions id with
    | none =>
        rw [receiveChunk_sessions_none st id i b w h] at hs'
        exact hinv id' s' hs'
    | some s =>
        rw [receiveChunk_sessions_some st id i b w s h] at hs'
        by_cases hid : id' = id
        · subst hid
          rw [upd_self] at hs'
          cases hs'
          exact sessionOk_insert (hinv id' s h) (fun n hn => hrange s n h hn)
        · rw [upd_of_ne _ _ _ _ hid] at hs'
          exact hinv id' s' hs'
  · intro st dirs hinv hdisk
    exact stateInv_load dirs hinv hdisk
  · intro st id readOk hinv id' s' hs'
    exact hinv id' s' (finalizeUpload_sessions_sub st id readOk id' s' hs')
  · intro st id hinv id' s' hs'
    rw [abortSession_sessions] at hs'
    by_cases hid : id' = id
    · subst hid
      rw [upd_self] at hs'
      cases hs'
    · rw [upd_of_ne _ _ _ _ hid] at hs'
      exact hinv id' s' hs'
  · intro st id s n hinv hs hn hnn
    exact sessionOk_card_le (hinv id s hs) hn hnn

/-- Witness for the amended C4: the invariant holds after starting a
2-chunk session and receiving the in-range chunk 0. -/
theorem stateInv_preservation_witness :
    StateInv (receiveChunk "w4" 0 [3] true
      (startSession "w4" (JSTotal.num 2) "f.txt" "t.txt" Visibility.pub
        emptyState)).2 :=
  stateInv_preservation.2.1 _ "w4" 0 [3] true
    (stateInv_preservation.1 emptyState "w4" (JSTotal.num 2) "f.txt" "t.txt"
      Visibility.pub (fun _ _ h => Option.noConfusion h))
    (fun s n hs hn => by
      have hconc : (startSession "w4" (JSTotal.num 2) "f.txt" "t.txt" Visibility.pub
          emptyState).sessions "w4" =
          some { id := "w4", originalName := "f.txt", totalChunks := JSTotal.num 2,
                 receivedChunks := ∅, targetPath := "t.txt",
                 visibility := Visibility.pub } := by decide
      rw [hconc] at hs
      cases hs
      cases hn
      exact ⟨le_refl 0, by norm_num⟩)

/-! ### Shape lemmas for the bounded `finalizeUpload` path -/

/-- On a registered bounded session with exactly `totalChunks` received
chunks, `finalizeUpload` proceeds to streaming the ascending received
indices. -/
theorem finalizeUpload_bounded_eq (st : CMState) (id : String) (readOk : ℤ → Bool)
    (s : UploadSession) (n : ℤ) (hs : st.sessions id = some s)
    (hn : s.totalChunks = JSTotal.num n)
    (hcard : (s.receivedChunks.card : ℤ) = n) :
    finalizeUpload id readOk st =
      streamAndFinish id s (s.receivedChunks.sort (· ≤ ·)) readOk st := by
  simp [finalizeUpload, hs, hn, hcard]

/-- When some read stream fails, the streaming tail surfaces the I/O error
and the only state change is the partial bytes left at the target path: the
sessions map and the scratch directories are untouched. -/
theorem streamAndFinish_fail (id : String) (s : UploadSession)
    (idxs : List ℤ) (readOk : ℤ → Bool) (st : CMState)
    (h : (streamLoop (fun i => (st.disk id).bind fun sd => chunkGet sd.chunkFiles i)
        readOk idxs []).2 = false) :
    streamAndFinish id s idxs readOk st =
      (Except.error StorageError.ioError,
        { st with targetFiles := (upd st.targetFiles s.targetPath
            (some (streamLoop (fun i => (st.disk id).bind fun sd => chunkGet sd.chunkFiles i)
              readOk idxs []).1)) }) := by
  simp [streamAndFinish, h]

/-- When every read stream delivers, the streaming tail succeeds: the full
byte stream lands at the target path, and the session directory and the
in-memory entry are removed. -/
theorem streamAndFinish_ok (id : String) (s : UploadSession)
    (idxs : List ℤ) (readOk : ℤ → Bool) (st : CMState)
    (h : (streamLoop (fun i => (st.disk id).bind fun sd => chunkGet sd.chunkFiles i)
        readOk idxs []).2 = true) :
    streamAndFinish id s idxs readOk st =
      (Except.ok s.targetPath,
        { sessions := upd st.sessions id none
          disk := upd st.disk id none
          targetFiles := upd st.targetFiles s.targetPath
            (some (streamLoop (fun i => (st.disk id).bind fun sd => chunkGet sd.chunkFiles i)
              readOk idxs []).1) }) := by
  simp [streamAndFinish, h]

/-! ### C6 — behaviour of `finalizeUpload` under a streaming I/O failure -/

/-- A bounded session `u6` with both expected chunks received:
chunk 0 = `[1, 2]`, chunk 1 = `[3, 4]`, target `t6.bin`. -/
def stC6 : CMState :=
  (receiveChunk "u6" 1 [3, 4] true
    ((receiveChunk "u6" 0 [1, 2] true
      (startSession "u6" (JSTotal.num 2) "f.bin" "t6.bin" Visibility.pub
        emptyState)).2)).2

/-- The session record registered by `stC6`. -/
def sessC6 : UploadSession :=
  { id := "u6"
    originalName := "f.bin"
    totalChunks := JSTotal.num 2
    receivedChunks := insert 1 (insert 0 ∅)
    targetPath := "t6.bin"
    visibility := Visibility.pub }

/-- A read oracle failing on chunk 1: the read stream for `chunk-1` errors
mid-finalize. -/
def readOkC6 : ℤ → Bool := fun i => decide (i = 0)

theorem sortSessC6 : sessC6.receivedChunks.sort (· ≤ ·) = [0, 1] := by
  show Finset.sort (· ≤ ·) (insert 1 (insert 0 ∅)) = [0, 1]
  have h01 : (insert (1 : ℤ) (insert 0 ∅) : Finset ℤ) = ([0, 1] : List ℤ).toFinset := by
    decide
  rw [h01]
  exact (List.toFinset_sort (· ≤ ·) (by decide)).mpr (by decide)

/-- C6 counterexample: `finalizeUpload` writes straight into `targetPath`
(no temporary path, no rename).  On the concrete complete 2-chunk session,
with the read stream of chunk 1 failing, finalize surfaces the I/O error —
but the bytes of chunk 0, `[1, 2]`, are left sitting at the target path
`t6.bin`, a partial file indistinguishable from a completed output (the
full output would have been `[1, 2, 3, 4]`). -/
theorem finalize_direct_write_cex :
    (finalizeUpload "u6" readOkC6 stC6).1 = Except.error StorageError.ioError ∧
    (finalizeUpload "u6" readOkC6 stC6).2.targetFiles "t6.bin" = some [1, 2] := by
  have heq := finalizeUpload_bounded_eq stC6 "u6" readOkC6 sessC6 2 (by decide) rfl
    (by decide)
  rw [sortSessC6] at heq
  rw [streamAndFinish_fail _ _ _ _ _ (by decide)] at heq
  exact ⟨by rw [heq], by rw [heq]; decide⟩

/-- On a registered unbounded session whose directory exists,
`finalizeUpload` proceeds to streaming the ascending parsed directory
listing. -/
theorem finalizeUpload_unbounded_eq (st : CMState) (id : String)
    (readOk : ℤ → Bool) (s : UploadSession) (sd : SessionDir)
    (hs : st.sessions id = some s) (hn : s.totalChunks = JSTotal.inf)
    (hd : st.disk id = some sd) :
    finalizeUpload id readOk st =
      streamAndFinish id s ((sd.chunkFiles.map Prod.fst).insertionSort (· ≤ ·))
        readOk st := by
  simp [finalizeUpload, hs, hn, hd]

/-- C6 amended: on ANY I/O failure while streaming chunks — a bounded
session streams its complete ascending received-set, an unbounded
(`Infinity`) session streams the ascending directory listing, both through
the same tail, and the disjunctive hypothesis below characterizes exactly
these two ways `finalizeUpload` reaches streaming — the in-memory session
and the whole session directory (all chunk files and metadata) are left
untouched, so `finalizeUpload` can be retried; but the output is written
directly to `targetPath` — the bytes piped before the failure remain there
as a partial file, with no temporary-path-and-rename discipline. -/
theorem finalizeUpload_stream_failure (st : CMState) (id : String)
    (readOk : ℤ → Bool) (s : UploadSession) (idxs : List ℤ)
    (hs : st.sessions id = some s)
    (hidxs :
      (∃ n, s.totalChunks = JSTotal.num n ∧ (s.receivedChunks.card : ℤ) = n ∧
        idxs = s.receivedChunks.sort (· ≤ ·)) ∨
      (∃ sd, s.totalChunks = JSTotal.inf ∧ st.disk id = some sd ∧
        idxs = (sd.chunkFiles.map Prod.fst).insertionSort (· ≤ ·)))
    (hfail : (streamLoop (fun i => (st.disk id).bind fun sd => chunkGet sd.chunkFiles i)
        readOk idxs []).2 = false) :
    finalizeUpload id readOk st =
      (Except.error StorageError.ioError,
        { st with targetFiles := (upd st.targetFiles s.targetPath
            (some (streamLoop (fun i => (st.disk id).bind fun sd => chunkGet sd.chunkFiles i)
              readOk idxs []).1)) }) := by
  rcases hidxs with ⟨n, hn, hcard, hidx⟩ | ⟨sd, hn, hd, hidx⟩
  · subst hidx
    rw [finalizeUpload_bounded_eq st id readOk s n hs hn hcard,
      streamAndFinish_fail _ _ _ _ _ hfail]
  · subst hidx
    rw [finalizeUpload_unbounded_eq st id readOk s sd hs hn hd,
      streamAndFinish_fail _ _ _ _ _ hfail]

/-- An unbounded session `v6` holding one chunk, `chunk-0 = [9]`. -/
def stU6 : CMState :=
  (receiveChunk "v6" 0 [9] true
    (startSession "v6" JSTotal.inf "f.bin" "v6.out" Visibility.pub emptyState)).2

/-- The session record registered by `stU6`. -/
def sessU6 : UploadSession :=
  { id := "v6"
    originalName := "f.bin"
    totalChunks := JSTotal.inf
    receivedChunks := insert 0 ∅
    targetPath := "v6.out"
    visibility := Visibility.pub }

/-- The session directory of `stU6`. -/
def dirU6 : SessionDir :=
  { metadataFile := some (marshal sessU6), chunkFiles := [(0, [9])] }

/-- Witness for the amended C6 on two concrete failing finalizes: a bounded
complete 2-chunk session whose chunk-1 read fails, and an unbounded session
whose single chunk read fails. -/
theorem finalizeUpload_stream_failure_witness :
    (finalizeUpload "u6" readOkC6 stC6 =
      (Except.error StorageError.ioError,
        { stC6 with targetFiles := (upd stC6.targetFiles sessC6.targetPath
            (some (streamLoop (fun i => (stC6.disk "u6").bind fun sd => chunkGet sd.chunkFiles i)
              readOkC6 [0, 1] []).1)) })) ∧
    (finalizeUpload "v6" (fun _ => false) stU6 =
      (Except.error StorageError.ioError,
        { stU6 with targetFiles := (upd stU6.targetFiles sessU6.targetPath
            (some (streamLoop (fun i => (stU6.disk "v6").bind fun sd => chunkGet sd.chunkFiles i)
              (fun _ => false) [0] []).1)) })) :=
  ⟨finalizeUpload_stream_failure stC6 "u6" readOkC6 sessC6 [0, 1] (by decide)
      (Or.inl ⟨2, rfl, by decide, sortSessC6.symm⟩) (by decide),
    finalizeUpload_stream_failure stU6 "v6" (fun _ => false) sessU6 [0] (by decide)
      (Or.inr ⟨dirU6, rfl, rfl, by decide⟩) (by decide)⟩

/-! ### C8 — idempotent chunk overwrite -/

/-- The full state transition of a successful `receiveChunk` on a
registered session: the index is inserted in the received-set, the metadata
re-persisted, and the chunk file at that index (over)written. -/
theorem receiveChunk_ok_eq (st : CMState) (id : String) (i : ℤ) (b : Bytes)
    (s : UploadSession) (hs : st.sessions id = some s) (hid : s.id = id) :
    receiveChunk id i b true st =
      (Except.ok (),
        { sessions := upd st.sessions id
            (some { s with receivedChunks := insert i s.receivedChunks })
          disk := upd st.disk id
            (some { metadataFile :=
                      some (marshal { s with receivedChunks := insert i s.receivedChunks })
                    chunkFiles :=
                      chunkSet ((st.disk id).getD ⟨none, []⟩).chunkFiles i b })
          targetFiles := st.targetFiles }) := by
  simp only [receiveChunk, hs, saveMetadata, writeChunkFile]
  have hid' : ({ s with receivedChunks := insert i s.receivedChunks } : UploadSession).id
      = id := hid
  rw [hid']
  rw [upd_self, upd_upd]
  rfl

/-- C8: submitting the same chunk index twice, with different payloads, is
idempotent up to the payload: the resulting manager state is identical to
the state after a single submission of the second payload — the index
appears once in the received-set, the chunk file holds the second payload,
and any later `finalizeUpload` therefore behaves exactly as if the chunk
had been submitted once, with the second payload winning and no
duplication in the assembled output. -/
theorem receiveChunk_twice_second_wins (st : CMState) (id : String) (i : ℤ)
    (b1 b2 : Bytes) (s : UploadSession) (hs : st.sessions id = some s)
    (hid : s.id = id) :
    (receiveChunk id i b2 true (receiveChunk id i b1 true st).2).2 =
      (receiveChunk id i b2 true st).2 ∧
    (receiveChunk id i b2 true (receiveChunk id i b1 true st).2).1 = Except.ok () ∧
    chunkAt (receiveChunk id i b2 true (receiveChunk id i b1 true st).2).2 id i
      = some b2 ∧
    (∀ readOk,
      finalizeUpload id readOk (receiveChunk id i b2 true (receiveChunk id i b1 true st).2).2 =
      finalizeUpload id readOk (receiveChunk id i b2 true st).2) := by
  have h1 := receiveChunk_ok_eq st id i b1 s hs hid
  set s' : UploadSession := { s with receivedChunks := insert i s.receivedChunks }
    with hsdef
  have hs1 : (receiveChunk id i b1 true st).2.sessions id = some s' := by
    rw [h1]
    exact upd_self st.sessions id (some s')
  have hid1 : s'.id = id := hid
  have h2 := receiveChunk_ok_eq (receiveChunk id i b1 true st).2 id i b2 s' hs1 hid1
  have h3 := receiveChunk_ok_eq st id i b2 s hs hid
  have hins : insert i s'.receivedChunks = insert i s.receivedChunks := by
    show insert i (insert i s.receivedChunks) = insert i s.receivedChunks
    exact Finset.insert_idem i s.receivedChunks
  have hsrec : ({ s' with receivedChunks := insert i s'.receivedChunks } : UploadSession)
      = s' := by
    rw [hsdef]
    simp [hins]
  have hstate : (receiveChunk id i b2 true (receiveChunk id i b1 true st).2).2 =
      (receiveChunk id i b2 true st).2 := by
    rw [h2, h1, h3]
    simp only [upd_self, Option.getD_some, upd_upd, chunkSet_chunkSet, hsrec, ← hsdef]
  refine ⟨hstate, by rw [h2], ?_, fun readOk => by rw [hstate]⟩
  rw [hstate, h3]
  simp [chunkAt, upd_self, chunkGet_chunkSet_self]

/-- A fresh bounded session `s8` expecting a single chunk. -/
def stC8 : CMState :=
  startSession "s8" (JSTotal.num 1) "f.txt" "t8.txt" Visibility.pub emptyState

/-- The session record registered by `stC8`. -/
def sessC8 : UploadSession :=
  { id := "s8"
    originalName := "f.txt"
    totalChunks := JSTotal.num 1
    receivedChunks := ∅
    targetPath := "t8.txt"
    visibility := Visibility.pub }

/-- Witness for C8: submitting chunk 0 as `[1]` then as `[2]`. -/
theorem receiveChunk_twice_second_wins_witness :
    (receiveChunk "s8" 0 [2] true (receiveChunk "s8" 0 [1] true stC8).2).2 =
      (receiveChunk "s8" 0 [2] true stC8).2 ∧
    (receiveChunk "s8" 0 [2] true (receiveChunk "s8" 0 [1] true stC8).2).1 =
      Except.ok () ∧
    chunkAt (receiveChunk "s8" 0 [2] true (receiveChunk "s8" 0 [1] true stC8).2).2
      "s8" 0 = some [2] ∧
    (∀ readOk,
      finalizeUpload "s8" readOk
        (receiveChunk "s8" 0 [2] true (receiveChunk "s8" 0 [1] true stC8).2).2 =
      finalizeUpload "s8" readOk (receiveChunk "s8" 0 [2] true stC8).2) :=
  receiveChunk_twice_second_wins stC8 "s8" 0 [1] [2] sessC8 (by decide) rfl

/-! ### C9 — crash-recovery fidelity of the metadata round trip -/

/-- Serializing the received-set to an integer sequence and deserializing
it back into a set is the identity on sessions. -/
theorem unmarshal_marshal (s : UploadSession) : unmarshal (marshal s) = s := by
  simp [unmarshal, marshal, Finset.sort_toFinset]

/-- Directories whose metadata is registered under other ids never disturb
the entry at `sid`. -/
theorem loadSessions_frame (sid : String) (dirs : List String) :
    ∀ st0 : CMState,
    (∀ d ∈ dirs, ∀ m, (st0.disk d).bind SessionDir.metadataFile = some m →
      m.id ≠ sid) →
    (loadSessionsFromDisk dirs st0).sessions sid = st0.sessions sid := by
  induction dirs with
  | nil => intro st0 _; rfl
  | cons d rest ih =>
      intro st0 h
      rw [loadSessions_cons]
      have hrest : ∀ d' ∈ rest, ∀ m,
          ((loadStep st0 d).disk d').bind SessionDir.metadataFile = some m →
          m.id ≠ sid := by
        intro d' hd' m hm
        rw [loadStep_disk] at hm
        exact h d' (List.mem_cons_of_mem d hd') m hm
      rw [ih (loadStep st0 d) hrest]
      unfold loadStep
      cases hmd : (st0.disk d).bind (·.metadataFile) with
      | none => rfl
      | some m =>
          dsimp only
          exact upd_of_ne _ _ _ _ (Ne.symm (h d (List.mem_cons_self d rest) m hmd))

/-- After the loader has run over a directory listing containing `sid` —
where no other directory's metadata claims id `sid` — the in-memory entry
at `sid` is the deserialized persisted record. -/
theorem loadSessions_lookup (sid : String) (s : UploadSession) (dirs : List String) :
    ∀ st0 : CMState,
    (st0.disk sid).bind SessionDir.metadataFile = some (marshal s) →
    s.id = sid →
    sid ∈ dirs →
    (∀ d ∈ dirs, ∀ m, (st0.disk d).bind SessionDir.metadataFile = some m →
      m.id = sid → d = sid) →
    (loadSessionsFromDisk dirs st0).sessions sid = some (unmarshal (marshal s)) := by
  induction dirs with
  | nil => intro _ _ _ hmem _; exact absurd hmem (List.not_mem_nil sid)
  | cons d rest ih =>
      intro st0 hmeta hid hmem hunique
      rw [loadSessions_cons]
      by_cases hr : sid ∈ rest
      · refine ih (loadStep st0 d) ?_ hid hr ?_
        · rw [loadStep_disk]; exact hmeta
        · intro d' hd' m hm
          rw [loadStep_disk] at hm
          exact hunique d' (List.mem_cons_of_mem d hd') m hm
      · have hd : d = sid := by
          rcases List.mem_cons.mp hmem with h | h
          · exact h.symm
          · exact absurd h hr
        subst hd
        have hrest : ∀ d' ∈ rest, ∀ m,
            ((loadStep st0 d).disk d').bind SessionDir.metadataFile = some m →
            m.id ≠ d := by
          intro d' hd' m hm hmid
          rw [loadStep_disk] at hm
          exact hr (hunique d' (List.mem_cons_of_mem d hd') m hm hmid ▸ hd')
        rw [loadSessions_frame d rest (loadStep st0 d) hrest]
        unfold loadStep
        rw [hmeta]
        dsimp only
        have hmid : (marshal s).id = d := hid
        rw [hmid, upd_self]

/-- C9: for a session whose metadata has been persisted, discarding the
whole in-memory session map and running `loadSessionsFromDisk` over the
same scratch directory reconstructs the session, and `getProgress` returns
the same value as before the simulated restart — the serialize/deserialize
round trip on the received-set preserves the set and hence its size. -/
theorem loadSessions_restores_progress (st : CMState) (sid : String)
    (dirs : List String) (s : UploadSession) (hs : st.sessions sid = some s)
    (hid : s.id = sid)
    (hmeta : (st.disk sid).bind SessionDir.metadataFile = some (marshal s))
    (hmem : sid ∈ dirs)
    (hunique : ∀ d ∈ dirs, ∀ m, (st.disk d).bind SessionDir.metadataFile = some m →
      m.id = sid → d = sid) :
    getProgress sid
        (loadSessionsFromDisk dirs { st with sessions := fun _ => none }) =
      getProgress sid st := by
  have hlook := loadSessions_lookup sid s dirs
    { st with sessions := fun _ => none } hmeta hid hmem hunique
  rw [getProgress, getProgress, hlook, unmarshal_marshal, hs]

/-- Witness for C9: the half-received 2-chunk session `s2` keeps its 50%
progress across a simulated restart. -/
theorem loadSessions_restores_progress_witness :
    getProgress "s2"
        (loadSessionsFromDisk ["s2"] { stC2 with sessions := fun _ => none }) =
      getProgress "s2" stC2 :=
  loadSessions_restores_progress stC2 "s2" ["s2"] sessC2 (by decide) rfl rfl
    (List.mem_singleton.mpr rfl)
    (fun d hd _ _ _ => List.mem_singleton.mp hd)

/-! ### C1 — order-independent assembly -/

/-- A client submitting a batch of chunks one at a time, every data write
reaching disk. -/
def runChunks (id : String) (l : List (ℤ × Bytes)) (st : CMState) : CMState :=
  l.foldl (fun acc q => (receiveChunk id q.1 q.2 true acc).2) st

theorem runChunks_nil (id : String) (st : CMState) : runChunks id [] st = st := rfl

theorem runChunks_cons (id : String) (q : ℤ × Bytes) (l : List (ℤ × Bytes))
    (st : CMState) :
    runChunks id (q :: l) st = runChunks id l (receiveChunk id q.1 q.2 true st).2 :=
  rfl

/-- Receiving a batch of chunks accumulates exactly their indices in the
session's received-set. -/
theorem runChunks_sessions (id : String) (l : List (ℤ × Bytes)) :
    ∀ (st : CMState) (s : UploadSession), st.sessions id = some s → s.id = id →
      (runChunks id l st).sessions id =
        some { s with receivedChunks := s.receivedChunks ∪ (l.map Prod.fst).toFinset } := by
  induction l with
  | nil =>
      intro st s hs _
      rw [runChunks_nil, hs]
      simp
  | cons q rest ih =>
      intro st s hs hid
      rw [runChunks_cons]
      have hstep : (receiveChunk id q.1 q.2 true st).2.sessions id =
          some { s with receivedChunks := insert q.1 s.receivedChunks } := by
        rw [receiveChunk_sessions_some st id q.1 q.2 true s hs, upd_self]
      rw [ih _ _ hstep hid]
      simp [Finset.insert_union, Finset.union_insert]

/-- Receiving a chunk leaves every other chunk file of the session
untouched. -/
theorem receiveChunk_chunkAt_other (st : CMState) (id : String) (j : ℤ)
    (c : Bytes) (s : UploadSession) (hs : st.sessions id = some s)
    (hid : s.id = id) (i : ℤ) (hne : i ≠ j) :
    chunkAt (receiveChunk id j c true st).2 id i = chunkAt st id i := by
  rw [receiveChunk_ok_eq st id j c s hs hid]
  cases hd : st.disk id with
  | none =>
      simp [chunkAt, upd_self, hd, chunkGet_chunkSet_ne _ _ _ _ hne, chunkGet,
        Ne.symm hne]
  | some sd => simp [chunkAt, upd_self, hd, chunkGet_chunkSet_ne _ _ _ _ hne]

/-- Receiving a chunk stores its bytes at its index. -/
theorem receiveChunk_chunkAt_self (st : CMState) (id : String) (j : ℤ)
    (c : Bytes) (s : UploadSession) (hs : st.sessions id = some s)
    (hid : s.id = id) :
    chunkAt (receiveChunk id j c true st).2 id j = some c := by
  rw [receiveChunk_ok_eq st id j c s hs hid]
  simp [chunkAt, upd_self, chunkGet_chunkSet_self]

/-- A batch not mentioning index `i` leaves chunk file `i` untouched. -/
theorem runChunks_chunkAt_frame (id : String) (l : List (ℤ × Bytes)) :
    ∀ (st : CMState) (s : UploadSession), st.sessions id = some s → s.id = id →
    ∀ i, i ∉ l.map Prod.fst →
    chunkAt (runChunks id l st) id i = chunkAt st id i := by
  induction l with
  | nil => intro st s _ _ i _; rfl
  | cons q rest ih =>
      intro st s hs hid i hi
      rw [runChunks_cons]
      rw [List.map_cons, List.mem_cons] at hi
      push_neg at hi
      have hstep : (receiveChunk id q.1 q.2 true st).2.sessions id =
          some { s with receivedChunks := insert q.1 s.receivedChunks } := by
        rw [receiveChunk_sessions_some st id q.1 q.2 true s hs, upd_self]
      rw [ih _ _ hstep hid i hi.2]
      exact receiveChunk_chunkAt_other st id q.1 q.2 s hs hid i hi.1

/-- In a batch with pairwise-distinct indices, each submitted payload ends
up stored at its index. -/
theorem runChunks_chunkAt_mem (id : String) (l : List (ℤ × Bytes)) :
    ∀ (st : CMState) (s : UploadSession), st.sessions id = some s → s.id = id →
    (l.map Prod.fst).Nodup →
    ∀ i b, (i, b) ∈ l → chunkAt (runChunks id l st) id i = some b := by
  induction l with
  | nil => intro _ _ _ _ _ i b h; exact absurd h (List.not_mem_nil _)
  | cons q rest ih =>
      intro st s hs hid hnd i b hmem
      rw [runChunks_cons]
      have hstep : (receiveChunk id q.1 q.2 true st).2.sessions id =
          some { s with receivedChunks := insert q.1 s.receivedChunks } := by
        rw [receiveChunk_sessions_some st id q.1 q.2 true s hs, upd_self]
      rw [List.map_cons, List.nodup_cons] at hnd
      rcases List.mem_cons.mp hmem with heq | hmem'
      · subst heq
        rw [runChunks_chunkAt_frame id rest _ _ hstep hid i hnd.1]
        exact receiveChunk_chunkAt_self st id i b s hs hid
      · exact ih _ _ hstep hid hnd.2 i b hmem'

/-- When every listed read succeeds and delivers `f i`, the streaming loop
pipes the concatenation of the `f i` in list order. -/
theorem streamLoop_ok (readChunk : ℤ → Option Bytes) (readOk : ℤ → Bool)
    (f : ℤ → Bytes) :
    ∀ (idxs : List ℤ) (acc : Bytes),
    (∀ i ∈ idxs, readOk i = true) → (∀ i ∈ idxs, readChunk i = some (f i)) →
    streamLoop readChunk readOk idxs acc = (acc ++ (idxs.map f).flatten, true) := by
  intro idxs
  induction idxs with
  | nil => intro acc _ _; simp [streamLoop]
  | cons i rest ih =>
      intro acc hok hrd
      have h1 : readOk i = true := hok i (List.mem_cons_self _ _)
      have h2 : readChunk i = some (f i) := hrd i (List.mem_cons_self _ _)
      rw [streamLoop, h1, if_pos rfl, h2]
      dsimp only
      rw [ih (acc ++ f i) (fun j hj => hok j (List.mem_cons_of_mem _ hj))
        (fun j hj => hrd j (List.mem_cons_of_mem _ hj))]
      simp [List.append_assoc]

/-- C1: starting a bounded session expecting `N ≥ 1` chunks and submitting
one payload for each index `0 .. N-1` in ANY arrival order (any permutation
of the chunk list), `finalizeUpload` succeeds and the bytes written to the
session's target path are the concatenation of the payloads in ascending
index order, byte for byte with no separators. -/
theorem order_independent_assembly (st : CMState) (id nm tp : String)
    (v : Visibility) (N : ℕ) (p : ℕ → Bytes) (l : List (ℤ × Bytes))
    (_hN : 1 ≤ N)
    (hperm : l.Perm ((List.range N).map fun (j : ℕ) => ((j : ℤ), p j))) :
    (finalizeUpload id (fun _ => true)
        (runChunks id l (startSession id (JSTotal.num (N : ℤ)) nm tp v st))).1 =
      Except.ok tp ∧
    (finalizeUpload id (fun _ => true)
        (runChunks id l
          (startSession id (JSTotal.num (N : ℤ)) nm tp v st))).2.targetFiles tp =
      some ((List.range N).map p).flatten := by
  have hs0 : (startSession id (JSTotal.num (N : ℤ)) nm tp v st).sessions id =
      some { id := id, originalName := nm, totalChunks := JSTotal.num (N : ℤ),
             receivedChunks := ∅, targetPath := tp, visibility := v } := by
    rw [startSession_sessions, upd_self]
  have hmap : (l.map Prod.fst).Perm ((List.range N).map fun (j : ℕ) => (j : ℤ)) := by
    have h := hperm.map Prod.fst
    simpa [List.map_map, Function.comp] using h
  have hndref : ((List.range N).map fun (j : ℕ) => (j : ℤ)).Nodup :=
    (List.nodup_range N).map Nat.cast_injective
  have hnd : (l.map Prod.fst).Nodup := hmap.nodup_iff.mpr hndref
  have hfs : (l.map Prod.fst).toFinset =
      ((List.range N).map fun (j : ℕ) => (j : ℤ)).toFinset :=
    List.toFinset_eq_of_perm _ _ hmap
  have hsess1 := runChunks_sessions id l
    (startSession id (JSTotal.num (N : ℤ)) nm tp v st) _ hs0 rfl
  rw [Finset.empty_union, hfs] at hsess1
  have hcard : ((((List.range N).map fun (j : ℕ) =>
      (j : ℤ)).toFinset.card : ℕ) : ℤ) = (N : ℤ) := by
    rw [List.toFinset_card_of_nodup hndref, List.length_map, List.length_range]
  have hsorted : List.Sorted (· ≤ ·) ((List.range N).map fun (j : ℕ) => (j : ℤ)) := by
    rw [List.Sorted, List.pairwise_map]
    exact (List.sorted_le_range N).imp (fun h => by exact_mod_cast h)
  have hsort : (((List.range N).map fun (j : ℕ) => (j : ℤ)).toFinset).sort (· ≤ ·) =
      (List.range N).map fun (j : ℕ) => (j : ℤ) :=
    (List.toFinset_sort (· ≤ ·) hndref).mpr hsorted
  have heq := finalizeUpload_bounded_eq
    (runChunks id l (startSession id (JSTotal.num (N : ℤ)) nm tp v st)) id
    (fun _ => true) _ (N : ℤ) hsess1 rfl hcard
  rw [hsort] at heq
  have hread : ∀ i ∈ (List.range N).map fun (j : ℕ) => (j : ℤ),
      ((runChunks id l (startSession id (JSTotal.num (N : ℤ)) nm tp v st)).disk
          id).bind (fun sd => chunkGet sd.chunkFiles i) = some (p i.toNat) := by
    intro i hi
    rcases List.mem_map.mp hi with ⟨j, hj, rfl⟩
    rw [Int.toNat_natCast]
    have hmem : ((j : ℤ), p j) ∈ l :=
      hperm.mem_iff.mpr (List.mem_map.mpr ⟨j, hj, rfl⟩)
    exact runChunks_chunkAt_mem id l
      (startSession id (JSTotal.num (N : ℤ)) nm tp v st) _ hs0 rfl hnd
      (j : ℤ) (p j) hmem
  have hloop := streamLoop_ok
    (fun i => ((runChunks id l
        (startSession id (JSTotal.num (N : ℤ)) nm tp v st)).disk id).bind
      (fun sd => chunkGet sd.chunkFiles i))
    (fun _ => true) (fun i => p i.toNat)
    ((List.range N).map fun (j : ℕ) => (j : ℤ)) [] (fun _ _ => rfl) hread
  rw [streamAndFinish_ok _ _ _ _ _ (by rw [hloop])] at heq
  have hjoin : ((((List.range N).map fun (j : ℕ) => (j : ℤ)).map
      fun i => p i.toNat)).flatten = ((List.range N).map p).flatten := by
    rw [List.map_map]
    refine congrArg List.flatten (List.map_congr_left ?_)
    intro j _
    simp [Function.comp, Int.toNat_natCast]
  constructor
  · rw [heq]
  · rw [heq]
    dsimp only
    rw [upd_self, hloop]
    dsimp only
    rw [List.nil_append, hjoin]

/-- Witness for C1: a 2-chunk session whose chunks arrive in the order
1, 0; the assembled output is still chunk 0 then chunk 1. -/
theorem order_independent_assembly_witness :
    (finalizeUpload "w1" (fun _ => true)
        (runChunks "w1" [(1, [7]), (0, [5])]
          (startSession "w1" (JSTotal.num ((2 : ℕ) : ℤ)) "f.txt" "w1.out"
            Visibility.pub emptyState))).1 = Except.ok "w1.out" ∧
    (finalizeUpload "w1" (fun _ => true)
        (runChunks "w1" [(1, [7]), (0, [5])]
          (startSession "w1" (JSTotal.num ((2 : ℕ) : ℤ)) "f.txt" "w1.out"
            Visibility.pub emptyState))).2.targetFiles "w1.out" =
      some ((List.range 2).map fun j => [5 + 2 * j]).flatten :=
  order_independent_assembly emptyState "w1" "f.txt" "w1.out" Visibility.pub 2
    (fun j => [5 + 2 * j]) [(1, [7]), (0, [5])] (by norm_num) (by decide)

end BetterStorage
